import Mathlib

/-!
# Verification of the flat-file-backed content store

Shallow embedding of the Express/fs-extra portfolio backend
(`src/unnamed/part_000`, the fullest variant, whose handlers subsume the
near-duplicate variants in `src/index.js` and `src/unnamed/part_001`).

Modelling conventions:
* A JS object (a record in a collection, or a request body) is an
  association list `Obj` from field names to `Value`s; property access is
  first-match lookup (`objGet`), and object spread `{...a, ...b}` is
  modelled by prepending the overriding entries, which yields exactly the
  JS property-lookup semantics.
* The filesystem state `FS` tracks the two backing JSON files
  (`posts.json`, `projects.json`, each `Option (List Obj)`; `none` means
  the file does not exist), the uploads directory as a list of
  `(filename, content)` pairs, and a set `removeFails` of upload filenames
  whose removal errors (modelling `fs.remove` throwing, e.g. EPERM).
  Other write failures (`fs.writeJson`, `fs.writeFile`) are not modelled.
* `Date.now()` and `new Date().toISOString()` are parameters (`now : Nat`,
  `nowIso : String`) of each request; the source calls them several times
  within one handler invocation, all modelled as the same instant.
* Node's base64 decoder is abstracted: writing a decoded payload is
  recorded as `Content.fromBase64 payload`.
-/

/-- A JSON/JS value as it occurs in request bodies and stored records. -/
inductive Value
  | vStr (s : String)
  | vNum (n : Nat)
  | vNull
deriving DecidableEq, Repr

/-- A JS object: association list from field names to values,
first-match lookup. -/
abbrev Obj := List (String × Value)

/-- JS property access `o.k` on our object representation. -/
def objGet (k : String) : Obj → Option Value
  | [] => none
  | (k1, v) :: rest => if k == k1 then some v else objGet k rest

/-- JS truthiness of `o.k` (absent and `null` are falsy, `""` and `0`
are falsy, everything else truthy). -/
def truthy : Option Value → Bool
  | none => false
  | some Value.vNull => false
  | some (Value.vStr s) => !(s == "")
  | some (Value.vNum n) => !(n == 0)

/-- If `p` is an initial run of `s` (character lists). -/
def charsHaveLead : List Char → List Char → Bool
  | [], _ => true
  | _ :: _, [] => false
  | c :: cs, d :: ds => c == d && charsHaveLead cs ds

/-- JS `s.startsWith(p)`. -/
def jsStartsWith (s p : String) : Bool := charsHaveLead p.data s.data

/-- Strip `sep` from the front of `s`, if it is there. -/
def stripLead : List Char → List Char → Option (List Char)
  | [], s => some s
  | _ :: _, [] => none
  | p :: ps, c :: cs => if p == c then stripLead ps cs else none

/-- Fuel-driven scan returning the final segment of the left-to-right
non-overlapping split of `s` on `sep` (`cur` is the reversed current
segment). The fuel is always at least `s.length`, so it never runs out
before `s` is consumed. -/
def lastSegF (sep : List Char) : Nat → List Char → List Char → List Char
  | 0, cur, s => cur.reverse ++ s
  | fuel + 1, cur, s =>
    match s with
    | [] => cur.reverse
    | c :: cs =>
      match stripLead sep s with
      | some rem => lastSegF sep fuel [] rem
      | none => lastSegF sep fuel (c :: cur) cs

/-- JS `s.split(sep).pop()`: the segment after the last occurrence of
`sep` (the whole string when `sep` does not occur). -/
def jsSplitPop (sep s : String) : String := ⟨lastSegF sep.data s.data.length [] s.data⟩

/-- One character of the JS `\s` class (the cases relevant to filenames). -/
def isWsChar (c : Char) : Bool :=
  c == ' ' || c == '\t' || c == '\n' || c == '\r' || c == '\x0b' || c == '\x0c'

/-- JS `s.replace(/\s+/g, "_")`: each maximal whitespace run becomes one
underscore. The flag records whether we are inside a whitespace run. -/
def squashWsAux : Bool → List Char → List Char
  | _, [] => []
  | inWs, c :: cs =>
    if isWsChar c then
      if inWs then squashWsAux true cs else '_' :: squashWsAux true cs
    else c :: squashWsAux false cs

/-- `file.originalname.replace(/\s+/g, "_")` from the multer setup. -/
def sanitizeName (s : String) : String := ⟨squashWsAux false s.data⟩

/-- Content of a file in the uploads directory. -/
inductive Content
  | fromBase64 (payload : String)
  | uploaded (bytes : Nat)
deriving DecidableEq, Repr

/-- A multipart-uploaded file as multer sees it. -/
structure UploadedFile where
  originalname : String
  bytes : Nat
deriving DecidableEq, Repr

/-- The filesystem state touched by the server: the two backing JSON
files, the uploads directory, and which upload filenames fail to be
removed. -/
structure FS where
  postsFile : Option (List Obj)
  projectsFile : Option (List Obj)
  uploads : List (String × Content)
  removeFails : List String
deriving DecidableEq, Repr

/-- Fresh deployment: no backing files, empty uploads directory. -/
def emptyFS : FS := ⟨none, none, [], []⟩

/-- The posts collection as the handlers see it after `loadData`. -/
def postsOf (fs : FS) : List Obj := fs.postsFile.getD []

/-- The projects collection as the handlers see it after `loadData`. -/
def projectsOf (fs : FS) : List Obj := fs.projectsFile.getD []

/-- `loadData(filePath)`: create the backing file with `[]` when absent,
then read it. Returns the new file state and the parsed array. -/
def loadData (file : Option (List Obj)) : Option (List Obj) × List Obj :=
  match file with
  | none => (some [], [])
  | some l => (some l, l)

/-- Result of a create handler: `201` with the new record, `400` on
validation failure, `500` when the handler body throws. -/
inductive CreateResult
  | created (record : Obj)
  | badRequest
  | serverError
deriving DecidableEq, Repr

/-- Result of the update handler. -/
inductive UpdateResult
  | updated (record : Obj)
  | notFound
deriving DecidableEq, Repr

/-- Result of a delete handler. -/
inductive DeleteResult
  | deleted (id : Nat)
  | notFound
  | serverError
deriving DecidableEq, Repr

/-- `p.id === id` where `id = Number(req.params.id)`: strict equality,
false when the field is absent or not that number. -/
def recordHasId (p : Obj) (id : Nat) : Bool := objGet "id" p == some (Value.vNum id)

/-- JS `Array.prototype.findIndex` (as `Option Nat`; `none` is `-1`). -/
def jsFindIndex (pred : Obj → Bool) : List Obj → Option Nat
  | [] => none
  | p :: l => if pred p then some 0 else (jsFindIndex pred l).map (· + 1)

/-- JS `Array.prototype.find`. -/
def jsFind (pred : Obj → Bool) : List Obj → Option Obj
  | [] => none
  | p :: l => if pred p then some p else jsFind pred l

/-- The filename a media URL `m` designates inside the uploads directory:
`path.join(__dirname, m)` lands in the uploads directory exactly when `m`
begins with `"/uploads/"`. For other paths the model assumes
`fs.pathExists` is false. -/
def uploadsFilenameOf (m : String) : Option String :=
  if jsStartsWith m "/uploads/" then some ⟨m.data.drop 9⟩ else none

/-- `fs.pathExists` inside the uploads directory. -/
def hasUpload (fs : FS) (f : String) : Bool := fs.uploads.any (fun e => e.1 == f)

/-- `fs.remove` of an uploads file (assuming it does not fail). -/
def removeUpload (fs : FS) (f : String) : FS :=
  { fs with uploads := fs.uploads.filter (fun e => !(e.1 == f)) }

/-- The identical media-cleanup block of both delete handlers:
`if (x.media && x.media.startsWith("/uploads")) { if (await fs.pathExists(filePath)) await fs.remove(filePath); }`.
`.error ()` models a thrown exception (caught by the handler's `catch`):
either `startsWith` on a truthy non-string `media` (TypeError) or a
failing `fs.remove`. -/
def mediaRemoval (p : Obj) (fs : FS) : Except Unit FS :=
  match objGet "media" p with
  | some (Value.vStr m) =>
    if jsStartsWith m "/uploads" then
      match uploadsFilenameOf m with
      | some f =>
        if hasUpload fs f then
          if fs.removeFails.contains f then .error ()
          else .ok (removeUpload fs f)
        else .ok fs
      | none => .ok fs
    else .ok fs
  | some (Value.vNum n) => if n == 0 then .ok fs else .error ()
  | _ => .ok fs

/-- The identical media-resolution block of both create handlers:
an already-uploaded file wins; else an inline `data:image...` payload is
base64-decoded after the last `";base64,"` and written to
`<Date.now()>.png` in the uploads directory. `.error ()` models
`media.startsWith` throwing on a truthy non-string `media`. -/
def resolveMedia (now : Nat) (reqFile : Option String) (bodyMedia : Option Value)
    (fs : FS) : Except Unit (Option String × FS) :=
  match reqFile with
  | some fname => .ok (some ("/uploads/" ++ fname), fs)
  | none =>
    match bodyMedia with
    | some (Value.vStr m) =>
      if jsStartsWith m "data:image" then
        let payload := jsSplitPop ";base64," m
        let filename := toString now ++ ".png"
        .ok (some ("/uploads/" ++ filename),
          { fs with uploads := fs.uploads ++ [(filename, Content.fromBase64 payload)] })
      else .ok (none, fs)
    | some (Value.vNum n) => if n == 0 then .ok (none, fs) else .error ()
    | _ => .ok (none, fs)

/-- The `newPost` object literal of `POST /posts` (field order as in the
source; `type || "blog"`, `link || null`, `blogLink || null`). -/
def mkNewPost (now : Nat) (nowIso : String) (body : Obj) (mediaUrl : Option String) : Obj :=
  [("id", Value.vNum now),
   ("title", (objGet "title" body).getD Value.vNull),
   ("content", (objGet "content" body).getD Value.vNull),
   ("type", if truthy (objGet "type" body) then (objGet "type" body).getD Value.vNull
            else Value.vStr "blog"),
   ("link", if truthy (objGet "link" body) then (objGet "link" body).getD Value.vNull
            else Value.vNull),
   ("blogLink", if truthy (objGet "blogLink" body) then (objGet "blogLink" body).getD Value.vNull
            else Value.vNull),
   ("media", match mediaUrl with | some u => Value.vStr u | none => Value.vNull),
   ("createdAt", Value.vStr nowIso)]

/-- The `newProject` object literal of `POST /projects`. -/
def mkNewProject (now : Nat) (nowIso : String) (body : Obj) (mediaUrl : Option String) : Obj :=
  [("id", Value.vNum now),
   ("title", (objGet "title" body).getD Value.vNull),
   ("media", match mediaUrl with | some u => Value.vStr u | none => Value.vNull),
   ("link", if truthy (objGet "link" body) then (objGet "link" body).getD Value.vNull
            else Value.vNull),
   ("createdAt", Value.vStr nowIso)]

/-- `POST /posts` handler body (after multer): validate
`title`/`content`, resolve media, build `newPost`, `loadData`, `unshift`,
`writeJson`. -/
def createPost (now : Nat) (nowIso : String) (reqFile : Option String) (body : Obj)
    (fs : FS) : FS × CreateResult :=
  if !(truthy (objGet "title" body)) || !(truthy (objGet "content" body)) then
    (fs, .badRequest)
  else
    match resolveMedia now reqFile (objGet "media" body) fs with
    | .error _ => (fs, .serverError)
    | .ok (mediaUrl, fs1) =>
      let newPost := mkNewPost now nowIso body mediaUrl
      ({ fs1 with postsFile := some (newPost :: (loadData fs1.postsFile).2) },
       .created newPost)

/-- `POST /projects` handler body (after multer): validate `title` only. -/
def createProject (now : Nat) (nowIso : String) (reqFile : Option String) (body : Obj)
    (fs : FS) : FS × CreateResult :=
  if !(truthy (objGet "title" body)) then
    (fs, .badRequest)
  else
    match resolveMedia now reqFile (objGet "media" body) fs with
    | .error _ => (fs, .serverError)
    | .ok (mediaUrl, fs1) =>
      let newProject := mkNewProject now nowIso body mediaUrl
      ({ fs1 with projectsFile := some (newProject :: (loadData fs1.projectsFile).2) },
       .created newProject)

/-- The multer `diskStorage` step: before the handler body runs, a
multipart file (if any) is written to the uploads directory under
`` `${Date.now()}-${file.originalname.replace(/\s+/g, "_")}` ``. -/
def multerSave (now : Nat) (file : Option UploadedFile) (fs : FS) : FS × Option String :=
  match file with
  | none => (fs, none)
  | some f =>
    let fname := toString now ++ "-" ++ sanitizeName f.originalname
    ({ fs with uploads := fs.uploads ++ [(fname, Content.uploaded f.bytes)] }, some fname)

/-- Full `POST /posts` route: multer, then the handler body. -/
def postPostsRoute (now : Nat) (nowIso : String) (file : Option UploadedFile) (body : Obj)
    (fs : FS) : FS × CreateResult :=
  let m := multerSave now file fs
  createPost now nowIso m.2 body m.1

/-- Full `POST /projects` route: multer, then the handler body. -/
def postProjectsRoute (now : Nat) (nowIso : String) (file : Option UploadedFile) (body : Obj)
    (fs : FS) : FS × CreateResult :=
  let m := multerSave now file fs
  createProject now nowIso m.2 body m.1

/-- `GET /posts`: `loadData` then return the array. -/
def getPosts (fs : FS) : FS × List Obj :=
  let pr := loadData fs.postsFile
  ({ fs with postsFile := pr.1 }, pr.2)

/-- `GET /projects`. -/
def getProjects (fs : FS) : FS × List Obj :=
  let pr := loadData fs.projectsFile
  ({ fs with projectsFile := pr.1 }, pr.2)

/-- `PUT /posts/:id`: `findIndex` by strict id equality; 404 when `-1`;
else `posts[index] = { ...posts[index], ...updates, updatedAt: ... }` and
`writeJson`. The spread is modelled by prepending the overriding entries
(same property-lookup semantics). -/
def updatePost (id : Nat) (nowIso : String) (updates : Obj) (fs : FS) : FS × UpdateResult :=
  let pr := loadData fs.postsFile
  let fs0 : FS := { fs with postsFile := pr.1 }
  let posts := pr.2
  match jsFindIndex (fun p => recordHasId p id) posts with
  | none => (fs0, .notFound)
  | some i =>
    let old := posts.getD i []
    let merged : Obj := ("updatedAt", Value.vStr nowIso) :: (updates ++ old)
    ({ fs0 with postsFile := some (posts.set i merged) }, .updated merged)

/-- `DELETE /posts/:id`: `find` + `filter` by strict id equality; 404
when absent; else best-effort media removal (whose failure throws and
aborts the handler before `writeJson`), then write the filtered array. -/
def deletePost (id : Nat) (fs : FS) : FS × DeleteResult :=
  let pr := loadData fs.postsFile
  let fs0 : FS := { fs with postsFile := pr.1 }
  let posts := pr.2
  let updated := posts.filter (fun p => !(recordHasId p id))
  match jsFind (fun p => recordHasId p id) posts with
  | none => (fs0, .notFound)
  | some p =>
    match mediaRemoval p fs0 with
    | .error _ => (fs0, .serverError)
    | .ok fs1 => ({ fs1 with postsFile := some updated }, .deleted id)

/-- `DELETE /projects/:id` (same shape as `DELETE /posts/:id`). -/
def deleteProject (id : Nat) (fs : FS) : FS × DeleteResult :=
  let pr := loadData fs.projectsFile
  let fs0 : FS := { fs with projectsFile := pr.1 }
  let projects := pr.2
  let updated := projects.filter (fun p => !(recordHasId p id))
  match jsFind (fun p => recordHasId p id) projects with
  | none => (fs0, .notFound)
  | some p =>
    match mediaRemoval p fs0 with
    | .error _ => (fs0, .serverError)
    | .ok fs1 => ({ fs1 with projectsFile := some updated }, .deleted id)


/-! ## Basic lemmas about the embedding -/

theorem loadData_eq (o : Option (List Obj)) : loadData o = (some (o.getD []), o.getD []) := by
  cases o <;> rfl

theorem objGet_append (k : String) (a b : Obj) :
    objGet k (a ++ b) =
      match objGet k a with
      | some v => some v
      | none => objGet k b := by
  induction a with
  | nil => simp [objGet]
  | cons e t ih =>
    obtain ⟨k1, v⟩ := e
    by_cases h : k = k1
    · simp [objGet, h]
    · simp [objGet, h, ih]

theorem jsFindIndex_lt_length (pred : Obj → Bool) (l : List Obj) :
    ∀ i, jsFindIndex pred l = some i → i < l.length := by
  induction l with
  | nil => intro i h; simp [jsFindIndex] at h
  | cons p t ih =>
    intro i h
    by_cases hp : pred p
    · simp [jsFindIndex, hp] at h
      simp only [List.length_cons]
      omega
    · simp [jsFindIndex, hp] at h
      obtain ⟨j, hj, rfl⟩ := h
      have hlt := ih j hj
      simp only [List.length_cons]
      omega

theorem get?_set_self (l : List Obj) :
    ∀ (i : Nat) (a : Obj), i < l.length → (l.set i a)[i]? = some a := by
  induction l with
  | nil => intro i a h; simp at h
  | cons p t ih =>
    intro i a h
    cases i with
    | zero => simp [List.set]
    | succ j =>
      simp [List.set]
      exact ih j a (by simpa using h)

/-- When `jsFindIndex` (or any search) succeeds on `postsOf fs`, the
posts backing file actually exists and holds that list. -/
theorem postsFile_exists_of_mem (fs : FS) (h : postsOf fs ≠ []) :
    fs.postsFile = some (postsOf fs) := by
  cases hf : fs.postsFile with
  | none => simp [postsOf, hf] at h
  | some l => simp [postsOf, hf]

theorem projectsFile_exists_of_mem (fs : FS) (h : projectsOf fs ≠ []) :
    fs.projectsFile = some (projectsOf fs) := by
  cases hf : fs.projectsFile with
  | none => simp [projectsOf, hf] at h
  | some l => simp [projectsOf, hf]

theorem jsFindIndex_nil_ne (pred : Obj → Bool) (l : List Obj) (i : Nat)
    (h : jsFindIndex pred l = some i) : l ≠ [] := by
  intro hl
  subst hl
  simp [jsFindIndex] at h

theorem jsFind_nil_ne (pred : Obj → Bool) (l : List Obj) (p : Obj)
    (h : jsFind pred l = some p) : l ≠ [] := by
  intro hl
  subst hl
  simp [jsFind] at h

/-! ## C8: listAll semantics -/

/-- C8: for every `listAll(collection)` call, if the backing file does not
exist it is first initialized to an empty array and an empty sequence is
returned; otherwise the entire stored array is returned unchanged, with no
pagination or filtering. (Both collections.) -/
theorem c8_theorem :
    (∀ fs : FS, fs.postsFile = none →
        getPosts fs = ({ fs with postsFile := some [] }, [])) ∧
    (∀ (fs : FS) (l : List Obj), fs.postsFile = some l →
        getPosts fs = (fs, l)) ∧
    (∀ fs : FS, fs.projectsFile = none →
        getProjects fs = ({ fs with projectsFile := some [] }, [])) ∧
    (∀ (fs : FS) (l : List Obj), fs.projectsFile = some l →
        getProjects fs = (fs, l)) := by
  refine ⟨?_, ?_, ?_, ?_⟩
  · intro fs h
    simp [getPosts, loadData, h]
  · intro fs l h
    obtain ⟨pf, qf, ul, rf⟩ := fs
    simp at h
    simp [getPosts, loadData, h]
  · intro fs h
    simp [getProjects, loadData, h]
  · intro fs l h
    obtain ⟨pf, qf, ul, rf⟩ := fs
    simp at h
    simp [getProjects, loadData, h]

def demoBody : Obj := [("title", Value.vStr "T"), ("content", Value.vStr "C")]

def demoStoredFS : FS :=
  { postsFile := some [mkNewPost 5 "2024-01-01T00:00:00.000Z" demoBody none],
    projectsFile := some [],
    uploads := [],
    removeFails := [] }

/-- Witness for C8 at concrete states: a fresh deployment (absent files)
and a store holding one post. -/
theorem c8_witness :
    getPosts emptyFS = ({ emptyFS with postsFile := some [] }, []) ∧
    getPosts demoStoredFS =
      (demoStoredFS, [mkNewPost 5 "2024-01-01T00:00:00.000Z" demoBody none]) ∧
    getProjects emptyFS = ({ emptyFS with projectsFile := some [] }, []) ∧
    getProjects demoStoredFS = (demoStoredFS, []) :=
  ⟨c8_theorem.1 emptyFS rfl,
   c8_theorem.2.1 demoStoredFS _ rfl,
   c8_theorem.2.2.1 emptyFS rfl,
   c8_theorem.2.2.2 demoStoredFS _ rfl⟩

/-! ## C6 / C10: update semantics -/

/-- The spread `{ ...old, ...updates, updatedAt: nowIso }` of the
`PUT /posts/:id` handler, as an object with JS property-lookup
semantics (later spread sources shadow earlier ones). -/
def mergedRecord (nowIso : String) (updates old : Obj) : Obj :=
  ("updatedAt", Value.vStr nowIso) :: (updates ++ old)

/-- Shared shape lemma: when `findIndex` succeeds, `updatePost` writes
the merged record at that index and returns it. -/
theorem updatePost_found (fs : FS) (id : Nat) (nowIso : String) (updates : Obj) (i : Nat)
    (h : jsFindIndex (fun p => recordHasId p id) (postsOf fs) = some i) :
    updatePost id nowIso updates fs =
      ({ fs with postsFile := some ((postsOf fs).set i
          (mergedRecord nowIso updates ((postsOf fs).getD i []))) },
       .updated (mergedRecord nowIso updates ((postsOf fs).getD i []))) := by
  obtain ⟨pf, qf, ul, rf⟩ := fs
  cases pf with
  | none => simp [postsOf, jsFindIndex] at h
  | some l =>
    have hl : postsOf ⟨some l, qf, ul, rf⟩ = l := rfl
    rw [hl] at h
    simp [updatePost, loadData, postsOf, h, mergedRecord]

theorem objGet_merged_override (nowIso : String) (updates old : Obj) (k : String) (v : Value)
    (hk : k ≠ "updatedAt") (hku : objGet k updates = some v) :
    objGet k (mergedRecord nowIso updates old) = some v := by
  simp [mergedRecord, objGet, hk, objGet_append, hku]

theorem objGet_merged_keep (nowIso : String) (updates old : Obj) (k : String)
    (hk : k ≠ "updatedAt") (hku : objGet k updates = none) :
    objGet k (mergedRecord nowIso updates old) = objGet k old := by
  simp [mergedRecord, objGet, hk, objGet_append, hku]

theorem objGet_merged_updatedAt (nowIso : String) (updates old : Obj) :
    objGet "updatedAt" (mergedRecord nowIso updates old) = some (Value.vStr nowIso) := by
  simp [mergedRecord, objGet]

/-- C6: for every update on an existing record, the provided fields are
merged over the existing record by shallow field-level overwrite (omitted
fields retain their prior values), a fresh `updatedAt` is stamped, the
backing file is rewritten with the merged record in place, and the merged
record is returned. -/
theorem c6_theorem (fs : FS) (id : Nat) (nowIso : String) (updates : Obj) (i : Nat)
    (h : jsFindIndex (fun p => recordHasId p id) (postsOf fs) = some i) :
    updatePost id nowIso updates fs =
      ({ fs with postsFile := some ((postsOf fs).set i
          (mergedRecord nowIso updates ((postsOf fs).getD i []))) },
       .updated (mergedRecord nowIso updates ((postsOf fs).getD i []))) ∧
    (∀ k, k ≠ "updatedAt" → objGet k updates = none →
        objGet k (mergedRecord nowIso updates ((postsOf fs).getD i []))
          = objGet k ((postsOf fs).getD i [])) ∧
    (∀ k v, k ≠ "updatedAt" → objGet k updates = some v →
        objGet k (mergedRecord nowIso updates ((postsOf fs).getD i [])) = some v) ∧
    objGet "updatedAt" (mergedRecord nowIso updates ((postsOf fs).getD i []))
      = some (Value.vStr nowIso) :=
  ⟨updatePost_found fs id nowIso updates i h,
   fun k hk hku => objGet_merged_keep nowIso updates _ k hk hku,
   fun k v hk hku => objGet_merged_override nowIso updates _ k v hk hku,
   objGet_merged_updatedAt nowIso updates _⟩

/-- Witness for C6: update an existing post's title; the merged record is
stored at the found index and returned. -/
theorem c6_witness :
    updatePost 5 "2024-02-02T00:00:00.000Z" [("title", Value.vStr "T2")] demoStoredFS =
      ({ demoStoredFS with postsFile := some ((postsOf demoStoredFS).set 0
          (mergedRecord "2024-02-02T00:00:00.000Z" [("title", Value.vStr "T2")]
            ((postsOf demoStoredFS).getD 0 []))) },
       .updated (mergedRecord "2024-02-02T00:00:00.000Z" [("title", Value.vStr "T2")]
            ((postsOf demoStoredFS).getD 0 []))) :=
  (c6_theorem demoStoredFS 5 "2024-02-02T00:00:00.000Z" [("title", Value.vStr "T2")] 0
    (by decide)).1

/-- C10: the shallow merge gives the caller's fields precedence for every
key, including `id` and `createdAt`; only `updatedAt` is always
overwritten with the fresh call-time timestamp, even when the caller
supplies an `updatedAt` of their own. Both the stored record (at the
found index) and the returned record are the merged one. -/
theorem c10_theorem (fs : FS) (id : Nat) (nowIso : String) (updates : Obj) (i : Nat)
    (h : jsFindIndex (fun p => recordHasId p id) (postsOf fs) = some i) :
    ∃ merged : Obj,
      (updatePost id nowIso updates fs).2 = .updated merged ∧
      (postsOf (updatePost id nowIso updates fs).1)[i]? = some merged ∧
      (∀ k v, k ≠ "updatedAt" → objGet k updates = some v → objGet k merged = some v) ∧
      objGet "updatedAt" merged = some (Value.vStr nowIso) := by
  refine ⟨mergedRecord nowIso updates ((postsOf fs).getD i []), ?_, ?_, ?_, ?_⟩
  · rw [updatePost_found fs id nowIso updates i h]
  · rw [updatePost_found fs id nowIso updates i h]
    simp only [postsOf, Option.getD]
    exact get?_set_self _ i _ (jsFindIndex_lt_length _ _ i h)
  · exact fun k v hk hku => objGet_merged_override nowIso updates _ k v hk hku
  · exact objGet_merged_updatedAt nowIso updates _

/-- Witness for C10: an update that supplies `id`, `createdAt` and even
`updatedAt`; the caller's `id` and `createdAt` win, the fresh timestamp
overwrites `updatedAt`. -/
theorem c10_witness :
    ∃ merged : Obj,
      (updatePost 5 "2024-03-03T00:00:00.000Z"
          [("id", Value.vNum 99), ("createdAt", Value.vStr "1999"),
           ("updatedAt", Value.vStr "fake")] demoStoredFS).2 = .updated merged ∧
      (postsOf (updatePost 5 "2024-03-03T00:00:00.000Z"
          [("id", Value.vNum 99), ("createdAt", Value.vStr "1999"),
           ("updatedAt", Value.vStr "fake")] demoStoredFS).1)[0]? = some merged ∧
      (∀ k v, k ≠ "updatedAt" →
          objGet k [("id", Value.vNum 99), ("createdAt", Value.vStr "1999"),
            ("updatedAt", Value.vStr "fake")] = some v → objGet k merged = some v) ∧
      objGet "updatedAt" merged = some (Value.vStr "2024-03-03T00:00:00.000Z") :=
  c10_theorem demoStoredFS 5 "2024-03-03T00:00:00.000Z"
    [("id", Value.vNum 99), ("createdAt", Value.vStr "1999"),
     ("updatedAt", Value.vStr "fake")] 0 (by decide)

/-! ## Create-success shape lemmas (shared by C1, C7, C9) -/

/-- `media && media.startsWith(...)` does not throw: a truthy non-string
`media` body field would raise a TypeError inside the handler. -/
def mediaBodyOk (v : Option Value) : Bool :=
  match v with
  | some (Value.vNum n) => n == 0
  | _ => true

/-- The post create succeeds (201): required fields truthy and the media
field does not make the handler throw. -/
def createOkPost (file : Option UploadedFile) (body : Obj) : Bool :=
  truthy (objGet "title" body) && truthy (objGet "content" body) &&
    (file.isSome || mediaBodyOk (objGet "media" body))

/-- The project create succeeds (201): `title` truthy, media harmless. -/
def createOkProject (file : Option UploadedFile) (body : Obj) : Bool :=
  truthy (objGet "title" body) && (file.isSome || mediaBodyOk (objGet "media" body))

/-- The `mediaUrl` a successful create resolves (multer file wins, else
inline `data:image` payload, else null). -/
def mediaUrlR (now : Nat) (file : Option UploadedFile) (body : Obj) : Option String :=
  match file with
  | some f => some ("/uploads/" ++ (toString now ++ "-" ++ sanitizeName f.originalname))
  | none =>
    match objGet "media" body with
    | some (Value.vStr m) =>
      if jsStartsWith m "data:image" then some ("/uploads/" ++ (toString now ++ ".png"))
      else none
    | _ => none

/-- The uploads-directory entries a successful create writes. -/
def mediaWrites (now : Nat) (file : Option UploadedFile) (body : Obj) :
    List (String × Content) :=
  match file with
  | some f => [(toString now ++ "-" ++ sanitizeName f.originalname, Content.uploaded f.bytes)]
  | none =>
    match objGet "media" body with
    | some (Value.vStr m) =>
      if jsStartsWith m "data:image" then
        [(toString now ++ ".png", Content.fromBase64 (jsSplitPop ";base64," m))]
      else []
    | _ => []

theorem postRoute_success (now : Nat) (nowIso : String) (file : Option UploadedFile)
    (body : Obj) (fs : FS) (h : createOkPost file body = true) :
    postPostsRoute now nowIso file body fs =
      ({ fs with uploads := fs.uploads ++ mediaWrites now file body,
                 postsFile := some (mkNewPost now nowIso body (mediaUrlR now file body)
                   :: postsOf fs) },
       .created (mkNewPost now nowIso body (mediaUrlR now file body))) := by
  obtain ⟨pf, qf, ul, rf⟩ := fs
  simp [createOkPost, Bool.and_eq_true] at h
  obtain ⟨⟨hT, hC⟩, hM⟩ := h
  cases file with
  | some f =>
    simp [postPostsRoute, multerSave, createPost, resolveMedia, hT, hC,
      mediaWrites, mediaUrlR, loadData_eq, postsOf]
  | none =>
    cases hm : objGet "media" body with
    | none =>
      simp [postPostsRoute, multerSave, createPost, resolveMedia, hT, hC, hm,
        mediaWrites, mediaUrlR, loadData_eq, postsOf]
    | some v =>
      cases v with
      | vStr m =>
        by_cases hs : jsStartsWith m "data:image" = true
        · simp [postPostsRoute, multerSave, createPost, resolveMedia, hT, hC, hm, hs,
            mediaWrites, mediaUrlR, loadData_eq, postsOf]
        · simp at hs
          simp [postPostsRoute, multerSave, createPost, resolveMedia, hT, hC, hm, hs,
            mediaWrites, mediaUrlR, loadData_eq, postsOf]
      | vNum n =>
        simp [mediaBodyOk, hm] at hM
        simp [postPostsRoute, multerSave, createPost, resolveMedia, hT, hC, hm, hM,
          mediaWrites, mediaUrlR, loadData_eq, postsOf]
      | vNull =>
        simp [postPostsRoute, multerSave, createPost, resolveMedia, hT, hC, hm,
          mediaWrites, mediaUrlR, loadData_eq, postsOf]

theorem projectRoute_success (now : Nat) (nowIso : String) (file : Option UploadedFile)
    (body : Obj) (fs : FS) (h : createOkProject file body = true) :
    postProjectsRoute now nowIso file body fs =
      ({ fs with uploads := fs.uploads ++ mediaWrites now file body,
                 projectsFile := some (mkNewProject now nowIso body (mediaUrlR now file body)
                   :: projectsOf fs) },
       .created (mkNewProject now nowIso body (mediaUrlR now file body))) := by
  obtain ⟨pf, qf, ul, rf⟩ := fs
  simp [createOkProject, Bool.and_eq_true] at h
  obtain ⟨hT, hM⟩ := h
  cases file with
  | some f =>
    simp [postProjectsRoute, multerSave, createProject, resolveMedia, hT,
      mediaWrites, mediaUrlR, loadData_eq, projectsOf]
  | none =>
    cases hm : objGet "media" body with
    | none =>
      simp [postProjectsRoute, multerSave, createProject, resolveMedia, hT, hm,
        mediaWrites, mediaUrlR, loadData_eq, projectsOf]
    | some v =>
      cases v with
      | vStr m =>
        by_cases hs : jsStartsWith m "data:image" = true
        · simp [postProjectsRoute, multerSave, createProject, resolveMedia, hT, hm, hs,
            mediaWrites, mediaUrlR, loadData_eq, projectsOf]
        · simp at hs
          simp [postProjectsRoute, multerSave, createProject, resolveMedia, hT, hm, hs,
            mediaWrites, mediaUrlR, loadData_eq, projectsOf]
      | vNum n =>
        simp [mediaBodyOk, hm] at hM
        simp [postProjectsRoute, multerSave, createProject, resolveMedia, hT, hm, hM,
          mediaWrites, mediaUrlR, loadData_eq, projectsOf]
      | vNull =>
        simp [postProjectsRoute, multerSave, createProject, resolveMedia, hT, hm,
          mediaWrites, mediaUrlR, loadData_eq, projectsOf]

/-! ## C9: inline base64 media -/

/-- C9: a create without an uploaded file whose `media` body field is a
string with the `"data:image"` marker decodes the base64 payload after
the `";base64,"` separator (`media.split(";base64,").pop()`), writes it
to `<epoch-millis>.png` in the uploads directory, and stores
`/uploads/<epoch-millis>.png` as the record's `media`. (Both handlers.) -/
theorem c9_theorem :
    (∀ (now : Nat) (nowIso : String) (body : Obj) (fs : FS) (m : String),
      objGet "media" body = some (Value.vStr m) →
      jsStartsWith m "data:image" = true →
      truthy (objGet "title" body) = true →
      truthy (objGet "content" body) = true →
      (postPostsRoute now nowIso none body fs).1.uploads =
          fs.uploads ++ [(toString now ++ ".png",
            Content.fromBase64 (jsSplitPop ";base64," m))] ∧
      (postPostsRoute now nowIso none body fs).2 =
          .created (mkNewPost now nowIso body
            (some ("/uploads/" ++ (toString now ++ ".png")))) ∧
      objGet "media" (mkNewPost now nowIso body
            (some ("/uploads/" ++ (toString now ++ ".png")))) =
          some (Value.vStr ("/uploads/" ++ (toString now ++ ".png")))) ∧
    (∀ (now : Nat) (nowIso : String) (body : Obj) (fs : FS) (m : String),
      objGet "media" body = some (Value.vStr m) →
      jsStartsWith m "data:image" = true →
      truthy (objGet "title" body) = true →
      (postProjectsRoute now nowIso none body fs).1.uploads =
          fs.uploads ++ [(toString now ++ ".png",
            Content.fromBase64 (jsSplitPop ";base64," m))] ∧
      (postProjectsRoute now nowIso none body fs).2 =
          .created (mkNewProject now nowIso body
            (some ("/uploads/" ++ (toString now ++ ".png")))) ∧
      objGet "media" (mkNewProject now nowIso body
            (some ("/uploads/" ++ (toString now ++ ".png")))) =
          some (Value.vStr ("/uploads/" ++ (toString now ++ ".png")))) := by
  constructor
  · intro now nowIso body fs m hm hs hT hC
    have hok : createOkPost none body = true := by
      simp [createOkPost, hT, hC, mediaBodyOk, hm]
    rw [postRoute_success now nowIso none body fs hok]
    refine ⟨?_, ?_, ?_⟩
    · simp [mediaWrites, hm, hs]
    · simp [mediaUrlR, hm, hs]
    · simp [mkNewPost, objGet]
  · intro now nowIso body fs m hm hs hT
    have hok : createOkProject none body = true := by
      simp [createOkProject, hT, mediaBodyOk, hm]
    rw [projectRoute_success now nowIso none body fs hok]
    refine ⟨?_, ?_, ?_⟩
    · simp [mediaWrites, hm, hs]
    · simp [mediaUrlR, hm, hs]
    · simp [mkNewProject, objGet]

/-- Witness for C9: a concrete inline PNG data URL; the payload after
`";base64,"` is written to `<now>.png` and the record points at it. -/
theorem c9_witness :
    (postPostsRoute 9 "t" none
        [("title", Value.vStr "T"), ("content", Value.vStr "C"),
         ("media", Value.vStr "data:image/png;base64,iVBORw0KGgo=")] emptyFS).1.uploads =
      [] ++ [("9.png", Content.fromBase64 (jsSplitPop ";base64,"
        "data:image/png;base64,iVBORw0KGgo="))] ∧
    jsSplitPop ";base64," "data:image/png;base64,iVBORw0KGgo=" = "iVBORw0KGgo=" ∧
    (postProjectsRoute 9 "t" none
        [("title", Value.vStr "P"),
         ("media", Value.vStr "data:image/png;base64,AAAA")] emptyFS).2 =
      .created (mkNewProject 9 "t"
        [("title", Value.vStr "P"), ("media", Value.vStr "data:image/png;base64,AAAA")]
        (some ("/uploads/" ++ (toString 9 ++ ".png")))) :=
  ⟨(c9_theorem.1 9 "t"
      [("title", Value.vStr "T"), ("content", Value.vStr "C"),
       ("media", Value.vStr "data:image/png;base64,iVBORw0KGgo=")] emptyFS
      "data:image/png;base64,iVBORw0KGgo=" (by decide) (by decide) (by decide) (by decide)).1,
   by decide,
   (c9_theorem.2 9 "t"
      [("title", Value.vStr "P"), ("media", Value.vStr "data:image/png;base64,AAAA")] emptyFS
      "data:image/png;base64,AAAA" (by decide) (by decide) (by decide)).2.1⟩

/-! ## C7: prepend-at-head, reverse-creation order -/

/-- One create request's inputs. -/
structure CreateIn where
  now : Nat
  nowIso : String
  file : Option UploadedFile
  body : Obj
deriving DecidableEq

/-- The record a successful post create produces. -/
def newPostOf (i : CreateIn) : Obj :=
  mkNewPost i.now i.nowIso i.body (mediaUrlR i.now i.file i.body)

/-- The record a successful project create produces. -/
def newProjectOf (i : CreateIn) : Obj :=
  mkNewProject i.now i.nowIso i.body (mediaUrlR i.now i.file i.body)

/-- Run a sequence of `POST /posts` requests. -/
def runPostCreates : List CreateIn → FS → FS
  | [], fs => fs
  | i :: l, fs => runPostCreates l (postPostsRoute i.now i.nowIso i.file i.body fs).1

/-- Run a sequence of `POST /projects` requests. -/
def runProjectCreates : List CreateIn → FS → FS
  | [], fs => fs
  | i :: l, fs => runProjectCreates l (postProjectsRoute i.now i.nowIso i.file i.body fs).1

theorem runPostCreates_posts (l : List CreateIn) :
    ∀ fs : FS, (∀ i ∈ l, createOkPost i.file i.body = true) →
      postsOf (runPostCreates l fs) = (l.map newPostOf).reverse ++ postsOf fs := by
  induction l with
  | nil => intro fs _; simp [runPostCreates]
  | cons i l ih =>
    intro fs hok
    have hi := hok i (by simp)
    have hrest : ∀ j ∈ l, createOkPost j.file j.body = true :=
      fun j hj => hok j (by simp [hj])
    simp only [runPostCreates]
    rw [postRoute_success i.now i.nowIso i.file i.body fs hi, ih _ hrest]
    simp [postsOf, newPostOf]

theorem runProjectCreates_projects (l : List CreateIn) :
    ∀ fs : FS, (∀ i ∈ l, createOkProject i.file i.body = true) →
      projectsOf (runProjectCreates l fs) = (l.map newProjectOf).reverse ++ projectsOf fs := by
  induction l with
  | nil => intro fs _; simp [runProjectCreates]
  | cons i l ih =>
    intro fs hok
    have hi := hok i (by simp)
    have hrest : ∀ j ∈ l, createOkProject j.file j.body = true :=
      fun j hj => hok j (by simp [hj])
    simp only [runProjectCreates]
    rw [projectRoute_success i.now i.nowIso i.file i.body fs hi, ih _ hrest]
    simp [projectsOf, newProjectOf]

theorem getPosts_snd (fs : FS) : (getPosts fs).2 = postsOf fs := by
  simp [getPosts, loadData_eq, postsOf]

theorem getProjects_snd (fs : FS) : (getProjects fs).2 = projectsOf fs := by
  simp [getProjects, loadData_eq, projectsOf]

/-- C7: every successful create prepends the new record at the head of
the stored array, so after N creates and no deletes (from a fresh store)
`listAll` returns exactly N records in reverse-creation order, most
recent first. (Both collections.) -/
theorem c7_theorem :
    (∀ (i : CreateIn) (fs : FS), createOkPost i.file i.body = true →
        postsOf (postPostsRoute i.now i.nowIso i.file i.body fs).1
          = newPostOf i :: postsOf fs) ∧
    (∀ l : List CreateIn, (∀ i ∈ l, createOkPost i.file i.body = true) →
        (getPosts (runPostCreates l emptyFS)).2 = (l.map newPostOf).reverse ∧
        (getPosts (runPostCreates l emptyFS)).2.length = l.length) ∧
    (∀ (i : CreateIn) (fs : FS), createOkProject i.file i.body = true →
        projectsOf (postProjectsRoute i.now i.nowIso i.file i.body fs).1
          = newProjectOf i :: projectsOf fs) ∧
    (∀ l : List CreateIn, (∀ i ∈ l, createOkProject i.file i.body = true) →
        (getProjects (runProjectCreates l emptyFS)).2 = (l.map newProjectOf).reverse ∧
        (getProjects (runProjectCreates l emptyFS)).2.length = l.length) := by
  refine ⟨?_, ?_, ?_, ?_⟩
  · intro i fs h
    rw [postRoute_success i.now i.nowIso i.file i.body fs h]
    simp [postsOf, newPostOf]
  · intro l hok
    have h := runPostCreates_posts l emptyFS hok
    rw [getPosts_snd, h]
    simp [emptyFS, postsOf]
  · intro i fs h
    rw [projectRoute_success i.now i.nowIso i.file i.body fs h]
    simp [projectsOf, newProjectOf]
  · intro l hok
    have h := runProjectCreates_projects l emptyFS hok
    rw [getProjects_snd, h]
    simp [emptyFS, projectsOf]

/-- Witness for C7: three posts created at ticks 1, 2, 3 list back as
[3, 2, 1]; one project creation mirrors it. -/
theorem c7_witness :
    (getPosts (runPostCreates
        [⟨1, "t1", none, demoBody⟩, ⟨2, "t2", none, demoBody⟩, ⟨3, "t3", none, demoBody⟩]
        emptyFS)).2 =
      ([⟨1, "t1", none, demoBody⟩, ⟨2, "t2", none, demoBody⟩,
        (⟨3, "t3", none, demoBody⟩ : CreateIn)].map newPostOf).reverse ∧
    (getProjects (runProjectCreates [⟨4, "t4", none, [("title", Value.vStr "P")]⟩]
        emptyFS)).2 =
      ([(⟨4, "t4", none, [("title", Value.vStr "P")]⟩ : CreateIn)].map newProjectOf).reverse :=
  ⟨((c7_theorem.2.1
      [⟨1, "t1", none, demoBody⟩, ⟨2, "t2", none, demoBody⟩, ⟨3, "t3", none, demoBody⟩]
      (by decide)).1),
   ((c7_theorem.2.2.2 [⟨4, "t4", none, [("title", Value.vStr "P")]⟩] (by decide)).1)⟩

/-! ## C4: failed validation and the transport-written upload -/

theorem postRoute_badRequest (now : Nat) (nowIso : String) (file : Option UploadedFile)
    (body : Obj) (fs : FS) (h : truthy (objGet "content" body) = false) :
    postPostsRoute now nowIso file body fs = ((multerSave now file fs).1, .badRequest) := by
  simp [postPostsRoute, createPost, h]

/-- C4 counterexample: a posts create missing `content` but carrying a
multipart file fails validation, yet the file is already in the uploads
directory (multer runs before the handler), refuting "no file is
written". -/
theorem c4_counterexample :
    (postPostsRoute 3 "t" (some ⟨"a b.png", 9⟩) [("title", Value.vStr "T")] emptyFS).2 =
      .badRequest ∧
    (postPostsRoute 3 "t" (some ⟨"a b.png", 9⟩) [("title", Value.vStr "T")] emptyFS).1.uploads =
      [("3-a_b.png", Content.uploaded 9)] := by decide

/-- C4 (amended): a posts create without a truthy `content` fails with
the validation error and the store writes nothing: the backing JSON
files are untouched (not even created) and, when the request carries no
multipart file, the filesystem is entirely unchanged. When it does carry
one, the transport (multer) has already written exactly that one file to
the uploads directory before validation ran. -/
theorem c4_theorem (now : Nat) (nowIso : String) (file : Option UploadedFile)
    (body : Obj) (fs : FS) (h : truthy (objGet "content" body) = false) :
    (postPostsRoute now nowIso file body fs).2 = .badRequest ∧
    (postPostsRoute now nowIso file body fs).1.postsFile = fs.postsFile ∧
    (postPostsRoute now nowIso file body fs).1.projectsFile = fs.projectsFile ∧
    (file = none → (postPostsRoute now nowIso file body fs).1 = fs) ∧
    (∀ uf : UploadedFile, file = some uf →
        (postPostsRoute now nowIso file body fs).1.uploads =
          fs.uploads ++ [(toString now ++ "-" ++ sanitizeName uf.originalname,
            Content.uploaded uf.bytes)]) := by
  rw [postRoute_badRequest now nowIso file body fs h]
  cases file with
  | none => simp [multerSave]
  | some uf => simp [multerSave]

/-- Witness for C4 (amended) at a concrete no-file request: validation
fails and the state is fully unchanged. -/
theorem c4_witness :
    (postPostsRoute 4 "t" none [("title", Value.vStr "T")] emptyFS).2 = .badRequest ∧
    (postPostsRoute 4 "t" none [("title", Value.vStr "T")] emptyFS).1 = emptyFS :=
  ⟨(c4_theorem 4 "t" none [("title", Value.vStr "T")] emptyFS (by decide)).1,
   (c4_theorem 4 "t" none [("title", Value.vStr "T")] emptyFS (by decide)).2.2.2.1 rfl⟩

/-! ## C5: update of an unknown id -/

theorem updatePost_notFound (fs : FS) (id : Nat) (nowIso : String) (updates : Obj)
    (h : jsFindIndex (fun p => recordHasId p id) (postsOf fs) = none) :
    updatePost id nowIso updates fs =
      ({ fs with postsFile := some (postsOf fs) }, .notFound) := by
  obtain ⟨pf, qf, ul, rf⟩ := fs
  cases pf with
  | none => simp [updatePost, loadData, postsOf, jsFindIndex]
  | some l =>
    have hl : postsOf ⟨some l, qf, ul, rf⟩ = l := rfl
    rw [hl] at h
    simp [updatePost, loadData, postsOf, h]

/-- C5 counterexample: updating an unknown id on a fresh store returns
NotFound, but the backing file — absent before the call — exists
afterwards with `[]`: `loadData` created it, so its content is not
unchanged. -/
theorem c5_counterexample :
    emptyFS.postsFile = none ∧
    (updatePost 1 "t" [("title", Value.vStr "X")] emptyFS).2 = .notFound ∧
    (updatePost 1 "t" [("title", Value.vStr "X")] emptyFS).1.postsFile = some [] := by
  decide

/-- C5 (amended): an update on an id that does not exist fails with
NotFound; if the backing file existed, the call leaves the state fully
unchanged; if it was absent, the only change is that `loadData`
initializes it to an empty array. -/
theorem c5_theorem (id : Nat) (nowIso : String) (updates : Obj) (fs : FS)
    (h : jsFindIndex (fun p => recordHasId p id) (postsOf fs) = none) :
    (updatePost id nowIso updates fs).2 = .notFound ∧
    (∀ l, fs.postsFile = some l → updatePost id nowIso updates fs = (fs, .notFound)) ∧
    (fs.postsFile = none →
        updatePost id nowIso updates fs = ({ fs with postsFile := some [] }, .notFound)) := by
  refine ⟨?_, ?_, ?_⟩
  · rw [updatePost_notFound fs id nowIso updates h]
  · intro l hl
    rw [updatePost_notFound fs id nowIso updates h]
    obtain ⟨pf, qf, ul, rf⟩ := fs
    simp at hl
    simp [postsOf, hl]
  · intro hl
    rw [updatePost_notFound fs id nowIso updates h]
    simp [postsOf, hl]

/-- Witness for C5 (amended): unknown id against an existing backing
file; the call returns NotFound and changes nothing. -/
theorem c5_witness :
    (updatePost 99 "t" [("title", Value.vStr "X")] demoStoredFS).2 = .notFound ∧
    updatePost 99 "t" [("title", Value.vStr "X")] demoStoredFS = (demoStoredFS, .notFound) :=
  ⟨(c5_theorem 99 "t" [("title", Value.vStr "X")] demoStoredFS (by decide)).1,
   (c5_theorem 99 "t" [("title", Value.vStr "X")] demoStoredFS (by decide)).2.1 _ rfl⟩

/-! ## Delete unfolding lemmas (shared by C1, C2, C3) -/

theorem charsHaveLead_append (a b s : List Char) :
    charsHaveLead (a ++ b) s = true → charsHaveLead a s = true := by
  induction a generalizing s with
  | nil => intro _; rfl
  | cons c cs ih =>
    intro h
    cases s with
    | nil => simp [charsHaveLead] at h
    | cons d ds =>
      simp [charsHaveLead, Bool.and_eq_true] at h ⊢
      exact ⟨h.1, ih ds h.2⟩

/-- A `"/uploads/..."` media URL also passes the handler's
`startsWith("/uploads")` check. -/
theorem startsWithUploads_of_filename (m : String) (f : String)
    (h : uploadsFilenameOf m = some f) : jsStartsWith m "/uploads" = true := by
  have hsl : jsStartsWith m "/uploads/" = true := by
    by_cases hs : jsStartsWith m "/uploads/" = true
    · exact hs
    · simp [uploadsFilenameOf, hs] at h
  have hsplit : ("/uploads/").data = ("/uploads").data ++ ['/'] := by decide
  have := hsl
  rw [jsStartsWith, hsplit] at this
  exact charsHaveLead_append _ _ _ this

theorem deletePost_notFound (fs : FS) (id : Nat)
    (h : jsFind (fun q => recordHasId q id) (postsOf fs) = none) :
    deletePost id fs = ({ fs with postsFile := some (postsOf fs) }, .notFound) := by
  obtain ⟨pf, qf, ul, rf⟩ := fs
  cases pf with
  | none => simp [deletePost, loadData, postsOf, jsFind]
  | some l =>
    have hl : postsOf ⟨some l, qf, ul, rf⟩ = l := rfl
    rw [hl] at h
    simp [deletePost, loadData, postsOf, h]

theorem deletePost_error (fs : FS) (id : Nat) (p : Obj)
    (hfind : jsFind (fun q => recordHasId q id) (postsOf fs) = some p)
    (herr : mediaRemoval p { fs with postsFile := some (postsOf fs) } = .error ()) :
    deletePost id fs = ({ fs with postsFile := some (postsOf fs) }, .serverError) := by
  obtain ⟨pf, qf, ul, rf⟩ := fs
  cases pf with
  | none => simp [postsOf, jsFind] at hfind
  | some l =>
    have hl : postsOf ⟨some l, qf, ul, rf⟩ = l := rfl
    rw [hl] at hfind herr
    simp [deletePost, loadData, postsOf, hfind, herr]

theorem deletePost_ok (fs : FS) (id : Nat) (p : Obj) (fs1 : FS)
    (hfind : jsFind (fun q => recordHasId q id) (postsOf fs) = some p)
    (hrem : mediaRemoval p { fs with postsFile := some (postsOf fs) } = .ok fs1) :
    deletePost id fs =
      ({ fs1 with postsFile := some ((postsOf fs).filter
          (fun q => !(recordHasId q id))) }, .deleted id) := by
  obtain ⟨pf, qf, ul, rf⟩ := fs
  cases pf with
  | none => simp [postsOf, jsFind] at hfind
  | some l =>
    have hl : postsOf ⟨some l, qf, ul, rf⟩ = l := rfl
    rw [hl] at hfind hrem
    simp [deletePost, loadData, postsOf, hfind, hrem]

theorem deleteProject_notFound (fs : FS) (id : Nat)
    (h : jsFind (fun q => recordHasId q id) (projectsOf fs) = none) :
    deleteProject id fs = ({ fs with projectsFile := some (projectsOf fs) }, .notFound) := by
  obtain ⟨pf, qf, ul, rf⟩ := fs
  cases qf with
  | none => simp [deleteProject, loadData, projectsOf, jsFind]
  | some l =>
    have hl : projectsOf ⟨pf, some l, ul, rf⟩ = l := rfl
    rw [hl] at h
    simp [deleteProject, loadData, projectsOf, h]

theorem deleteProject_error (fs : FS) (id : Nat) (p : Obj)
    (hfind : jsFind (fun q => recordHasId q id) (projectsOf fs) = some p)
    (herr : mediaRemoval p { fs with projectsFile := some (projectsOf fs) } = .error ()) :
    deleteProject id fs = ({ fs with projectsFile := some (projectsOf fs) }, .serverError) := by
  obtain ⟨pf, qf, ul, rf⟩ := fs
  cases qf with
  | none => simp [projectsOf, jsFind] at hfind
  | some l =>
    have hl : projectsOf ⟨pf, some l, ul, rf⟩ = l := rfl
    rw [hl] at hfind herr
    simp [deleteProject, loadData, projectsOf, hfind, herr]

theorem deleteProject_ok (fs : FS) (id : Nat) (p : Obj) (fs1 : FS)
    (hfind : jsFind (fun q => recordHasId q id) (projectsOf fs) = some p)
    (hrem : mediaRemoval p { fs with projectsFile := some (projectsOf fs) } = .ok fs1) :
    deleteProject id fs =
      ({ fs1 with projectsFile := some ((projectsOf fs).filter
          (fun q => !(recordHasId q id))) }, .deleted id) := by
  obtain ⟨pf, qf, ul, rf⟩ := fs
  cases qf with
  | none => simp [projectsOf, jsFind] at hfind
  | some l =>
    have hl : projectsOf ⟨pf, some l, ul, rf⟩ = l := rfl
    rw [hl] at hfind hrem
    simp [deleteProject, loadData, projectsOf, hfind, hrem]

/-! ## C2: a failing media removal aborts the delete -/

theorem mediaRemoval_fail (p : Obj) (fs : FS) (m : String) (f : String)
    (hm : objGet "media" p = some (Value.vStr m))
    (hu : uploadsFilenameOf m = some f)
    (hex : hasUpload fs f = true)
    (hrf : fs.removeFails.contains f = true) :
    mediaRemoval p fs = .error () := by
  have hs := startsWithUploads_of_filename m f hu
  simp [mediaRemoval, hm, hs, hu, hex, hrf]
  simpa using hrf

/-- A post with a media file under the uploads prefix. -/
def mediaPost : Obj :=
  [("id", Value.vNum 1), ("title", Value.vStr "A"), ("content", Value.vStr "B"),
   ("media", Value.vStr "/uploads/a.png"), ("createdAt", Value.vStr "t0")]

/-- A project with a media file under the uploads prefix. -/
def mediaProject : Obj :=
  [("id", Value.vNum 1), ("title", Value.vStr "P"),
   ("media", Value.vStr "/uploads/b.png"), ("createdAt", Value.vStr "t0")]

/-- A store where removing either media file errors. -/
def failFS : FS :=
  { postsFile := some [mediaPost], projectsFile := some [mediaProject],
    uploads := [("a.png", Content.fromBase64 "x"), ("b.png", Content.fromBase64 "y")],
    removeFails := ["a.png", "b.png"] }

/-- C2 counterexample: when removing the media file fails, the delete
does NOT succeed — it returns the storage error and the record is still
in the backing file (the `fs.remove` failure is thrown before
`writeJson` runs), refuting "the record is still removed and the
operation reports success". -/
theorem c2_counterexample :
    (deletePost 1 failFS).2 = .serverError ∧
    (deletePost 1 failFS).1.postsFile = some [mediaPost] ∧
    (deletePost 1 failFS).1.uploads = failFS.uploads := by decide

/-- C2 (amended): a failure while removing the media file of an existing
record makes the overall delete fail with the storage error: the record
is NOT removed from the backing JSON file (the backing array and the
uploads directory are unchanged), because the throw happens before
`writeJson`; only the catch-all logger sees it. (Both collections.) -/
theorem c2_theorem :
    (∀ (fs : FS) (id : Nat) (p : Obj) (m f : String),
      jsFind (fun q => recordHasId q id) (postsOf fs) = some p →
      objGet "media" p = some (Value.vStr m) →
      uploadsFilenameOf m = some f →
      hasUpload fs f = true →
      fs.removeFails.contains f = true →
      (deletePost id fs).2 = .serverError ∧
      postsOf (deletePost id fs).1 = postsOf fs ∧
      (deletePost id fs).1.uploads = fs.uploads) ∧
    (∀ (fs : FS) (id : Nat) (p : Obj) (m f : String),
      jsFind (fun q => recordHasId q id) (projectsOf fs) = some p →
      objGet "media" p = some (Value.vStr m) →
      uploadsFilenameOf m = some f →
      hasUpload fs f = true →
      fs.removeFails.contains f = true →
      (deleteProject id fs).2 = .serverError ∧
      projectsOf (deleteProject id fs).1 = projectsOf fs ∧
      (deleteProject id fs).1.uploads = fs.uploads) := by
  constructor
  · intro fs id p m f hfind hm hu hex hrf
    have herr : mediaRemoval p { fs with postsFile := some (postsOf fs) } = .error () :=
      mediaRemoval_fail p _ m f hm hu hex hrf
    rw [deletePost_error fs id p hfind herr]
    simp [postsOf]
  · intro fs id p m f hfind hm hu hex hrf
    have herr : mediaRemoval p { fs with projectsFile := some (projectsOf fs) } = .error () :=
      mediaRemoval_fail p _ m f hm hu hex hrf
    rw [deleteProject_error fs id p hfind herr]
    simp [projectsOf]

/-- Witness for C2 (amended) on a concrete store whose media removals
fail: both deletes return the storage error with state unchanged. -/
theorem c2_witness :
    ((deletePost 1 failFS).2 = .serverError ∧
     postsOf (deletePost 1 failFS).1 = postsOf failFS ∧
     (deletePost 1 failFS).1.uploads = failFS.uploads) ∧
    ((deleteProject 1 failFS).2 = .serverError ∧
     projectsOf (deleteProject 1 failFS).1 = projectsOf failFS ∧
     (deleteProject 1 failFS).1.uploads = failFS.uploads) :=
  ⟨c2_theorem.1 failFS 1 mediaPost "/uploads/a.png" "a.png"
     (by decide) (by decide) (by decide) (by decide) (by decide),
   c2_theorem.2 failFS 1 mediaProject "/uploads/b.png" "b.png"
     (by decide) (by decide) (by decide) (by decide) (by decide)⟩

/-! ## C3: delete of an existing id -/

/-- How many live records carry id value `v`. -/
def countIds (v : Option Value) : List Obj → Nat
  | [] => 0
  | p :: l => (if objGet "id" p == v then 1 else 0) + countIds v l

/-- Whether some live record carries id value `v`. -/
def elemIds (v : Option Value) : List Obj → Bool
  | [] => false
  | p :: l => (objGet "id" p == v) || elemIds v l

/-- The uploads-directory file a record's media points at, if any. -/
def mediaFileOf (p : Obj) : Option String :=
  match objGet "media" p with
  | some (Value.vStr m) => uploadsFilenameOf m
  | _ => none

/-- The delete's media-cleanup block runs without throwing on `p`. -/
def deleteMediaOk (fs : FS) (p : Obj) : Bool :=
  match objGet "media" p with
  | some (Value.vStr m) =>
    match uploadsFilenameOf m with
    | some f => !(hasUpload fs f) || !(fs.removeFails.contains f)
    | none => true
  | some (Value.vNum n) => n == 0
  | _ => true

theorem hasUpload_removeUpload (fs : FS) (f : String) :
    hasUpload (removeUpload fs f) f = false := by
  simp [hasUpload, removeUpload, List.any_eq_true, List.mem_filter]

theorem mediaRemoval_ok (p : Obj) (fs : FS) (hok : deleteMediaOk fs p = true) :
    ∃ fs1 : FS, mediaRemoval p fs = .ok fs1 ∧
      fs1.postsFile = fs.postsFile ∧ fs1.projectsFile = fs.projectsFile ∧
      fs1.removeFails = fs.removeFails ∧
      (∀ f, mediaFileOf p = some f → hasUpload fs1 f = false) := by
  cases hm : objGet "media" p with
  | none =>
    exact ⟨fs, by simp [mediaRemoval, hm], rfl, rfl, rfl, by simp [mediaFileOf, hm]⟩
  | some v =>
    cases v with
    | vNull =>
      exact ⟨fs, by simp [mediaRemoval, hm], rfl, rfl, rfl, by simp [mediaFileOf, hm]⟩
    | vNum n =>
      have hn : (n == 0) = true := by simpa [deleteMediaOk, hm] using hok
      exact ⟨fs, by simp [mediaRemoval, hm, hn], rfl, rfl, rfl, by simp [mediaFileOf, hm]⟩
    | vStr m =>
      cases hu : uploadsFilenameOf m with
      | none =>
        refine ⟨fs, ?_, rfl, rfl, rfl, by simp [mediaFileOf, hm, hu]⟩
        by_cases hs : jsStartsWith m "/uploads" = true
        · simp [mediaRemoval, hm, hs, hu]
        · simp at hs
          simp [mediaRemoval, hm, hs]
      | some f =>
        have hs := startsWithUploads_of_filename m f hu
        cases hex : hasUpload fs f with
        | false =>
          refine ⟨fs, by simp [mediaRemoval, hm, hs, hu, hex], rfl, rfl, rfl, ?_⟩
          intro g hg
          simp [mediaFileOf, hm, hu] at hg
          rw [← hg]
          exact hex
        | true =>
          have hrf : fs.removeFails.contains f = false := by
            have := hok
            simp [deleteMediaOk, hm, hu, hex] at this
            simpa using this
          refine ⟨removeUpload fs f, ?_, rfl, rfl, rfl, ?_⟩
          · simp [mediaRemoval, hm, hs, hu, hex, hrf]
            simpa using hrf
          · intro g hg
            simp [mediaFileOf, hm, hu] at hg
            rw [← hg]
            exact hasUpload_removeUpload fs f

theorem length_filter_countIds (id : Nat) (l : List Obj) :
    (l.filter (fun q => !(recordHasId q id))).length
      + countIds (some (Value.vNum id)) l = l.length := by
  induction l with
  | nil => rfl
  | cons p t ih =>
    cases h : recordHasId p id with
    | true =>
      have h2 : (objGet "id" p == some (Value.vNum id)) = true := h
      simp [List.filter_cons, countIds, h, h2]
      omega
    | false =>
      have h2 : (objGet "id" p == some (Value.vNum id)) = false := h
      simp [List.filter_cons, countIds, h, h2]
      omega

theorem elemIds_filter_out (id : Nat) (l : List Obj) :
    elemIds (some (Value.vNum id)) (l.filter (fun q => !(recordHasId q id))) = false := by
  induction l with
  | nil => rfl
  | cons p t ih =>
    cases h : recordHasId p id with
    | true =>
      rw [List.filter_cons]
      simp only [h, Bool.not_true, Bool.false_eq_true, if_false]
      exact ih
    | false =>
      have h2 : (objGet "id" p == some (Value.vNum id)) = false := h
      rw [List.filter_cons]
      simp only [h, Bool.not_false, if_true, elemIds]
      simp [h2, ih]

theorem deleteMediaOk_postsFile (fs : FS) (o : Option (List Obj)) (p : Obj) :
    deleteMediaOk { fs with postsFile := o } p = deleteMediaOk fs p := rfl

theorem postsOf_set (fs : FS) (l : List Obj) :
    postsOf { fs with postsFile := some l } = l := rfl

theorem projectsOf_set (fs : FS) (l : List Obj) :
    projectsOf { fs with projectsFile := some l } = l := rfl

theorem deleteMediaOk_projectsFile (fs : FS) (o : Option (List Obj)) (p : Obj) :
    deleteMediaOk { fs with projectsFile := o } p = deleteMediaOk fs p := rfl

/-- C3 counterexample: two creates in the same millisecond yield two
records with the same id; one delete of that id then removes BOTH (the
handler filters by id), so "exactly one record is removed" fails. -/
theorem c3_counterexample :
    (postsOf ((postPostsRoute 7 "t2" none demoBody
        (postPostsRoute 7 "t1" none demoBody emptyFS).1).1)).length = 2 ∧
    (deletePost 7 (postPostsRoute 7 "t2" none demoBody
        (postPostsRoute 7 "t1" none demoBody emptyFS).1).1).2 = .deleted 7 ∧
    postsOf (deletePost 7 (postPostsRoute 7 "t2" none demoBody
        (postPostsRoute 7 "t1" none demoBody emptyFS).1).1).1 = [] := by decide

/-- C3 (amended): a delete of an existing id removes every record
bearing that id — exactly one precisely when the id occurs once among
the live records — provided the media cleanup does not throw; a
subsequent `listAll` excludes the id, and if the record's media pointed
at an existing uploads file whose removal succeeds, that file no longer
exists. (Both collections.) -/
theorem c3_theorem :
    (∀ (fs : FS) (id : Nat) (p : Obj),
      jsFind (fun q => recordHasId q id) (postsOf fs) = some p →
      countIds (some (Value.vNum id)) (postsOf fs) = 1 →
      deleteMediaOk fs p = true →
      (deletePost id fs).2 = .deleted id ∧
      (postsOf (deletePost id fs).1).length + 1 = (postsOf fs).length ∧
      elemIds (some (Value.vNum id)) (getPosts (deletePost id fs).1).2 = false ∧
      (∀ f, mediaFileOf p = some f → hasUpload (deletePost id fs).1 f = false)) ∧
    (∀ (fs : FS) (id : Nat) (p : Obj),
      jsFind (fun q => recordHasId q id) (projectsOf fs) = some p →
      countIds (some (Value.vNum id)) (projectsOf fs) = 1 →
      deleteMediaOk fs p = true →
      (deleteProject id fs).2 = .deleted id ∧
      (projectsOf (deleteProject id fs).1).length + 1 = (projectsOf fs).length ∧
      elemIds (some (Value.vNum id)) (getProjects (deleteProject id fs).1).2 = false ∧
      (∀ f, mediaFileOf p = some f → hasUpload (deleteProject id fs).1 f = false)) := by
  constructor
  · intro fs id p hfind hcount hok
    have hok0 : deleteMediaOk { fs with postsFile := some (postsOf fs) } p = true := by
      rw [deleteMediaOk_postsFile]
      exact hok
    obtain ⟨fs1, hrem, hpf, hqf, hrf, hupl⟩ := mediaRemoval_ok p _ hok0
    rw [deletePost_ok fs id p fs1 hfind hrem]
    refine ⟨rfl, ?_, ?_, ?_⟩
    · rw [postsOf_set]
      have hlen := length_filter_countIds id (postsOf fs)
      omega
    · rw [getPosts_snd, postsOf_set]
      exact elemIds_filter_out id (postsOf fs)
    · intro f hf
      exact hupl f hf
  · intro fs id p hfind hcount hok
    have hok0 : deleteMediaOk { fs with projectsFile := some (projectsOf fs) } p = true := by
      rw [deleteMediaOk_projectsFile]
      exact hok
    obtain ⟨fs1, hrem, hpf, hqf, hrf, hupl⟩ := mediaRemoval_ok p _ hok0
    rw [deleteProject_ok fs id p fs1 hfind hrem]
    refine ⟨rfl, ?_, ?_, ?_⟩
    · rw [projectsOf_set]
      have hlen := length_filter_countIds id (projectsOf fs)
      omega
    · rw [getProjects_snd, projectsOf_set]
      exact elemIds_filter_out id (projectsOf fs)
    · intro f hf
      exact hupl f hf

/-- A store whose single post / single project each point at an existing
uploads file and whose removals succeed. -/
def okFS : FS :=
  { postsFile := some [mediaPost], projectsFile := some [mediaProject],
    uploads := [("a.png", Content.fromBase64 "x"), ("b.png", Content.fromBase64 "y")],
    removeFails := [] }

/-- Witness for C3 (amended): deleting the unique id 1 removes exactly
one record, listing excludes it, and the media file is gone. -/
theorem c3_witness :
    ((deletePost 1 okFS).2 = .deleted 1 ∧
     (postsOf (deletePost 1 okFS).1).length + 1 = (postsOf okFS).length ∧
     elemIds (some (Value.vNum 1)) (getPosts (deletePost 1 okFS).1).2 = false ∧
     (∀ f, mediaFileOf mediaPost = some f → hasUpload (deletePost 1 okFS).1 f = false)) ∧
    ((deleteProject 1 okFS).2 = .deleted 1 ∧
     (projectsOf (deleteProject 1 okFS).1).length + 1 = (projectsOf okFS).length ∧
     elemIds (some (Value.vNum 1)) (getProjects (deleteProject 1 okFS).1).2 = false ∧
     (∀ f, mediaFileOf mediaProject = some f →
        hasUpload (deleteProject 1 okFS).1 f = false)) :=
  ⟨c3_theorem.1 okFS 1 mediaPost (by decide) (by decide) (by decide),
   c3_theorem.2 okFS 1 mediaProject (by decide) (by decide) (by decide)⟩

/-! ## C1: id uniqueness across operation sequences -/

/-- Pairwise distinctness of the `id` field among live records. -/
def nodupIds : List Obj → Bool
  | [] => true
  | p :: l => !(elemIds (objGet "id" p) l) && nodupIds l

theorem elemIds_filter_imp (v : Option Value) (q : Obj → Bool) (l : List Obj)
    (h : elemIds v (l.filter q) = true) : elemIds v l = true := by
  induction l with
  | nil => exact h
  | cons p t ih =>
    cases hq : q p with
    | true =>
      rw [List.filter_cons] at h
      simp only [hq, if_true] at h
      simp only [elemIds, Bool.or_eq_true] at h ⊢
      rcases h with h1 | h2
      · exact Or.inl h1
      · exact Or.inr (ih h2)
    | false =>
      rw [List.filter_cons] at h
      simp only [hq, Bool.false_eq_true, if_false] at h
      simp only [elemIds, Bool.or_eq_true]
      exact Or.inr (ih h)

theorem nodupIds_filter (q : Obj → Bool) (l : List Obj) (h : nodupIds l = true) :
    nodupIds (l.filter q) = true := by
  induction l with
  | nil => simpa using h
  | cons p t ih =>
    simp only [nodupIds, Bool.and_eq_true] at h
    obtain ⟨h1, h2⟩ := h
    cases hq : q p with
    | false =>
      rw [List.filter_cons]
      simp only [hq, Bool.false_eq_true, if_false]
      exact ih h2
    | true =>
      rw [List.filter_cons]
      simp only [hq, if_true, nodupIds, Bool.and_eq_true]
      refine ⟨?_, ih h2⟩
      cases he : elemIds (objGet "id" p) (t.filter q) with
      | false => simp
      | true =>
        have := elemIds_filter_imp _ q t he
        simp [this] at h1

theorem elemIds_set (v : Option Value) (l : List Obj) :
    ∀ (i : Nat) (old p : Obj), l[i]? = some old →
      objGet "id" p = objGet "id" old → elemIds v (l.set i p) = elemIds v l := by
  induction l with
  | nil => intro i old p h; simp at h
  | cons q t ih =>
    intro i old p h hid
    cases i with
    | zero =>
      simp at h
      subst h
      simp [List.set, elemIds, hid]
    | succ j =>
      simp at h
      simp [List.set, elemIds, ih j old p h hid]

theorem nodupIds_set (l : List Obj) :
    ∀ (i : Nat) (old p : Obj), l[i]? = some old →
      objGet "id" p = objGet "id" old → nodupIds (l.set i p) = nodupIds l := by
  induction l with
  | nil => intro i old p h; simp at h
  | cons q t ih =>
    intro i old p h hid
    cases i with
    | zero =>
      simp at h
      subst h
      simp [List.set, nodupIds, hid]
    | succ j =>
      simp at h
      simp [List.set, nodupIds, elemIds_set (objGet "id" q) t j old p h hid,
        ih j old p h hid]

theorem get?_eq_getD (l : List Obj) : ∀ i, i < l.length → l[i]? = some (l.getD i []) := by
  induction l with
  | nil => intro i h; simp at h
  | cons p t ih =>
    intro i h
    cases i with
    | zero => simp [List.getD]
    | succ j =>
      simp only [List.getElem?_cons_succ, List.getD_cons_succ]
      exact ih j (by simpa using h)

/-- When the caller supplies no `id` field, the merge keeps the old id. -/
theorem objGet_merged_id (nowIso : String) (updates old : Obj)
    (h : objGet "id" updates = none) :
    objGet "id" (mergedRecord nowIso updates old) = objGet "id" old :=
  objGet_merged_keep nowIso updates old "id" (by decide) h

theorem objGet_id_mkNewPost (now : Nat) (nowIso : String) (body : Obj)
    (u : Option String) :
    objGet "id" (mkNewPost now nowIso body u) = some (Value.vNum now) := rfl

theorem objGet_id_mkNewProject (now : Nat) (nowIso : String) (body : Obj)
    (u : Option String) :
    objGet "id" (mkNewProject now nowIso body u) = some (Value.vNum now) := rfl

theorem countIds_zero_of_not_elem (v : Option Value) (l : List Obj)
    (h : elemIds v l = false) : countIds v l = 0 := by
  induction l with
  | nil => rfl
  | cons p t ih =>
    simp only [elemIds, Bool.or_eq_false_iff] at h
    simp [countIds, h.1, ih h.2]

theorem postRoute_posts_cases (now : Nat) (nowIso : String) (file : Option UploadedFile)
    (body : Obj) (fs : FS) :
    (postsOf (postPostsRoute now nowIso file body fs).1 = postsOf fs ∧
     projectsOf (postPostsRoute now nowIso file body fs).1 = projectsOf fs) ∨
    (postsOf (postPostsRoute now nowIso file body fs).1
        = mkNewPost now nowIso body (mediaUrlR now file body) :: postsOf fs ∧
     projectsOf (postPostsRoute now nowIso file body fs).1 = projectsOf fs) := by
  by_cases hok : createOkPost file body = true
  · right
    rw [postRoute_success now nowIso file body fs hok]
    exact ⟨rfl, rfl⟩
  · left
    obtain ⟨pf, qf, ul, rf⟩ := fs
    by_cases hT : truthy (objGet "title" body) = true
    · by_cases hC : truthy (objGet "content" body) = true
      · cases file with
        | some f => exact absurd (by simp [createOkPost, hT, hC]) hok
        | none =>
          cases hm : objGet "media" body with
          | none => exact absurd (by simp [createOkPost, hT, hC, mediaBodyOk, hm]) hok
          | some v =>
            cases v with
            | vStr m => exact absurd (by simp [createOkPost, hT, hC, mediaBodyOk, hm]) hok
            | vNull => exact absurd (by simp [createOkPost, hT, hC, mediaBodyOk, hm]) hok
            | vNum n =>
              cases hn : (n == 0) with
              | true =>
                exact absurd (by simp [createOkPost, hT, hC, mediaBodyOk, hm, hn]) hok
              | false =>
                constructor <;>
                  simp [postPostsRoute, multerSave, createPost, resolveMedia, hT, hC,
                    hm, hn, postsOf, projectsOf]
      · have hC0 : truthy (objGet "content" body) = false := by simpa using hC
        cases file with
        | none =>
          constructor <;>
            simp [postPostsRoute, multerSave, createPost, hT, hC0, postsOf, projectsOf]
        | some f =>
          constructor <;>
            simp [postPostsRoute, multerSave, createPost, hT, hC0, postsOf, projectsOf]
    · have hT0 : truthy (objGet "title" body) = false := by simpa using hT
      cases file with
      | none =>
        constructor <;>
          simp [postPostsRoute, multerSave, createPost, hT0, postsOf, projectsOf]
      | some f =>
        constructor <;>
          simp [postPostsRoute, multerSave, createPost, hT0, postsOf, projectsOf]

theorem projectRoute_projects_cases (now : Nat) (nowIso : String)
    (file : Option UploadedFile) (body : Obj) (fs : FS) :
    (projectsOf (postProjectsRoute now nowIso file body fs).1 = projectsOf fs ∧
     postsOf (postProjectsRoute now nowIso file body fs).1 = postsOf fs) ∨
    (projectsOf (postProjectsRoute now nowIso file body fs).1
        = mkNewProject now nowIso body (mediaUrlR now file body) :: projectsOf fs ∧
     postsOf (postProjectsRoute now nowIso file body fs).1 = postsOf fs) := by
  by_cases hok : createOkProject file body = true
  · right
    rw [projectRoute_success now nowIso file body fs hok]
    exact ⟨rfl, rfl⟩
  · left
    obtain ⟨pf, qf, ul, rf⟩ := fs
    by_cases hT : truthy (objGet "title" body) = true
    · cases file with
      | some f => exact absurd (by simp [createOkProject, hT]) hok
      | none =>
        cases hm : objGet "media" body with
        | none => exact absurd (by simp [createOkProject, hT, mediaBodyOk, hm]) hok
        | some v =>
          cases v with
          | vStr m => exact absurd (by simp [createOkProject, hT, mediaBodyOk, hm]) hok
          | vNull => exact absurd (by simp [createOkProject, hT, mediaBodyOk, hm]) hok
          | vNum n =>
            cases hn : (n == 0) with
            | true =>
              exact absurd (by simp [createOkProject, hT, mediaBodyOk, hm, hn]) hok
            | false =>
              constructor <;>
                simp [postProjectsRoute, multerSave, createProject, resolveMedia, hT,
                  hm, hn, postsOf, projectsOf]
    · have hT0 : truthy (objGet "title" body) = false := by simpa using hT
      cases file with
      | none =>
        constructor <;>
          simp [postProjectsRoute, multerSave, createProject, hT0, postsOf, projectsOf]
      | some f =>
        constructor <;>
          simp [postProjectsRoute, multerSave, createProject, hT0, postsOf, projectsOf]

theorem mediaRemoval_files (p : Obj) (fs fs1 : FS)
    (h : mediaRemoval p fs = .ok fs1) :
    fs1.postsFile = fs.postsFile ∧ fs1.projectsFile = fs.projectsFile := by
  cases hm : objGet "media" p with
  | none =>
    simp [mediaRemoval, hm] at h
    subst h
    exact ⟨rfl, rfl⟩
  | some v =>
    cases v with
    | vNull =>
      simp [mediaRemoval, hm] at h
      subst h
      exact ⟨rfl, rfl⟩
    | vNum n =>
      cases hn : (n == 0) with
      | true =>
        simp [mediaRemoval, hm, hn] at h
        subst h
        exact ⟨rfl, rfl⟩
      | false =>
        simp [mediaRemoval, hm, hn] at h
    | vStr m =>
      by_cases hs : jsStartsWith m "/uploads" = true
      · cases hu : uploadsFilenameOf m with
        | none =>
          simp [mediaRemoval, hm, hs, hu] at h
          subst h
          exact ⟨rfl, rfl⟩
        | some f =>
          cases hex : hasUpload fs f with
          | false =>
            simp [mediaRemoval, hm, hs, hu, hex] at h
            subst h
            exact ⟨rfl, rfl⟩
          | true =>
            cases hrf : fs.removeFails.contains f with
            | true =>
              have hmem : f ∈ fs.removeFails := by simpa using hrf
              simp [mediaRemoval, hm, hs, hu, hex, hmem] at h
            | false =>
              have hmem : f ∉ fs.removeFails := by simpa using hrf
              simp [mediaRemoval, hm, hs, hu, hex, hmem] at h
              rw [← h]
              exact ⟨rfl, rfl⟩
      · have hs0 : jsStartsWith m "/uploads" = false := by simpa using hs
        simp [mediaRemoval, hm, hs0] at h
        subst h
        exact ⟨rfl, rfl⟩

theorem deletePost_step (id : Nat) (fs : FS) (h : nodupIds (postsOf fs) = true) :
    nodupIds (postsOf (deletePost id fs).1) = true ∧
    projectsOf (deletePost id fs).1 = projectsOf fs := by
  cases hfind : jsFind (fun q => recordHasId q id) (postsOf fs) with
  | none =>
    rw [deletePost_notFound fs id hfind]
    exact ⟨by rw [postsOf_set]; exact h, rfl⟩
  | some p =>
    cases hrem : mediaRemoval p { fs with postsFile := some (postsOf fs) } with
    | error e =>
      cases e
      rw [deletePost_error fs id p hfind hrem]
      exact ⟨by rw [postsOf_set]; exact h, rfl⟩
    | ok fs1 =>
      rw [deletePost_ok fs id p fs1 hfind hrem]
      obtain ⟨hp1, hq1⟩ := mediaRemoval_files p _ fs1 hrem
      refine ⟨by rw [postsOf_set]; exact nodupIds_filter _ _ h, ?_⟩
      simp [projectsOf, hq1]

theorem deleteProject_step (id : Nat) (fs : FS) (h : nodupIds (projectsOf fs) = true) :
    nodupIds (projectsOf (deleteProject id fs).1) = true ∧
    postsOf (deleteProject id fs).1 = postsOf fs := by
  cases hfind : jsFind (fun q => recordHasId q id) (projectsOf fs) with
  | none =>
    rw [deleteProject_notFound fs id hfind]
    exact ⟨by rw [projectsOf_set]; exact h, rfl⟩
  | some p =>
    cases hrem : mediaRemoval p { fs with projectsFile := some (projectsOf fs) } with
    | error e =>
      cases e
      rw [deleteProject_error fs id p hfind hrem]
      exact ⟨by rw [projectsOf_set]; exact h, rfl⟩
    | ok fs1 =>
      rw [deleteProject_ok fs id p fs1 hfind hrem]
      obtain ⟨hp1, hq1⟩ := mediaRemoval_files p _ fs1 hrem
      refine ⟨by rw [projectsOf_set]; exact nodupIds_filter _ _ h, ?_⟩
      simp [postsOf, hp1]

theorem updatePost_step (id : Nat) (nowIso : String) (updates : Obj) (fs : FS)
    (hupd : objGet "id" updates = none) (h : nodupIds (postsOf fs) = true) :
    nodupIds (postsOf (updatePost id nowIso updates fs).1) = true ∧
    projectsOf (updatePost id nowIso updates fs).1 = projectsOf fs := by
  cases hf : jsFindIndex (fun p => recordHasId p id) (postsOf fs) with
  | none =>
    rw [updatePost_notFound fs id nowIso updates hf]
    exact ⟨by rw [postsOf_set]; exact h, rfl⟩
  | some i =>
    rw [updatePost_found fs id nowIso updates i hf]
    refine ⟨?_, rfl⟩
    rw [postsOf_set]
    have hlt := jsFindIndex_lt_length _ _ i hf
    have hget := get?_eq_getD (postsOf fs) i hlt
    rw [nodupIds_set (postsOf fs) i ((postsOf fs).getD i []) _ hget
      (objGet_merged_id nowIso updates _ hupd)]
    exact h

theorem postRoute_step (now : Nat) (nowIso : String) (file : Option UploadedFile)
    (body : Obj) (fs : FS)
    (hfresh : elemIds (some (Value.vNum now)) (postsOf fs) = false)
    (h : nodupIds (postsOf fs) = true) :
    nodupIds (postsOf (postPostsRoute now nowIso file body fs).1) = true ∧
    projectsOf (postPostsRoute now nowIso file body fs).1 = projectsOf fs := by
  rcases postRoute_posts_cases now nowIso file body fs with ⟨hp, hq⟩ | ⟨hp, hq⟩
  · exact ⟨by rw [hp]; exact h, hq⟩
  · refine ⟨?_, hq⟩
    rw [hp]
    simp [nodupIds, objGet_id_mkNewPost, hfresh, h]

theorem projectRoute_step (now : Nat) (nowIso : String) (file : Option UploadedFile)
    (body : Obj) (fs : FS)
    (hfresh : elemIds (some (Value.vNum now)) (projectsOf fs) = false)
    (h : nodupIds (projectsOf fs) = true) :
    nodupIds (projectsOf (postProjectsRoute now nowIso file body fs).1) = true ∧
    postsOf (postProjectsRoute now nowIso file body fs).1 = postsOf fs := by
  rcases projectRoute_projects_cases now nowIso file body fs with ⟨hp, hq⟩ | ⟨hp, hq⟩
  · exact ⟨by rw [hp]; exact h, hq⟩
  · refine ⟨?_, hq⟩
    rw [hp]
    simp [nodupIds, objGet_id_mkNewProject, hfresh, h]

/-- One mutating request against the store. -/
inductive StoreOp
  | createPostOp (now : Nat) (nowIso : String) (file : Option UploadedFile) (body : Obj)
  | updatePostOp (id : Nat) (nowIso : String) (updates : Obj)
  | deletePostOp (id : Nat)
  | createProjectOp (now : Nat) (nowIso : String) (file : Option UploadedFile) (body : Obj)
  | deleteProjectOp (id : Nat)
deriving DecidableEq

/-- Apply one request to the filesystem state. -/
def applyOp : StoreOp → FS → FS
  | .createPostOp now nowIso file body, fs => (postPostsRoute now nowIso file body fs).1
  | .updatePostOp id nowIso updates, fs => (updatePost id nowIso updates fs).1
  | .deletePostOp id, fs => (deletePost id fs).1
  | .createProjectOp now nowIso file body, fs => (postProjectsRoute now nowIso file body fs).1
  | .deleteProjectOp id, fs => (deleteProject id fs).1

/-- Run a sequence of requests. -/
def runOps : List StoreOp → FS → FS
  | [], fs => fs
  | op :: l, fs => runOps l (applyOp op fs)

/-- Id uniqueness holds in both collections. -/
def idsOk (fs : FS) : Bool := nodupIds (postsOf fs) && nodupIds (projectsOf fs)

/-- Well-behaved request: a create's wall-clock id is fresh for its
collection and an update does not rewrite the `id` field. -/
def opOk (fs : FS) : StoreOp → Bool
  | .createPostOp now _ _ _ => !(elemIds (some (Value.vNum now)) (postsOf fs))
  | .updatePostOp _ _ updates => (objGet "id" updates).isNone
  | .deletePostOp _ => true
  | .createProjectOp now _ _ _ => !(elemIds (some (Value.vNum now)) (projectsOf fs))
  | .deleteProjectOp _ => true

/-- Every request in the sequence is well behaved in the state where it
runs. -/
def opsOk (fs : FS) : List StoreOp → Bool
  | [] => true
  | op :: l => opOk fs op && opsOk (applyOp op fs) l

theorem idsOk_step (fs : FS) (op : StoreOp) (hok : opOk fs op = true)
    (hinv : idsOk fs = true) : idsOk (applyOp op fs) = true := by
  simp only [idsOk, Bool.and_eq_true] at hinv
  obtain ⟨hP, hQ⟩ := hinv
  cases op with
  | createPostOp now nowIso file body =>
    have hfresh : elemIds (some (Value.vNum now)) (postsOf fs) = false := by
      simpa [opOk] using hok
    obtain ⟨h1, h2⟩ := postRoute_step now nowIso file body fs hfresh hP
    simp only [applyOp, idsOk, Bool.and_eq_true]
    exact ⟨h1, by rw [h2]; exact hQ⟩
  | updatePostOp id nowIso updates =>
    have hupd : objGet "id" updates = none := by
      have := hok
      simp only [opOk, Option.isNone_iff_eq_none] at this
      exact this
    obtain ⟨h1, h2⟩ := updatePost_step id nowIso updates fs hupd hP
    simp only [applyOp, idsOk, Bool.and_eq_true]
    exact ⟨h1, by rw [h2]; exact hQ⟩
  | deletePostOp id =>
    obtain ⟨h1, h2⟩ := deletePost_step id fs hP
    simp only [applyOp, idsOk, Bool.and_eq_true]
    exact ⟨h1, by rw [h2]; exact hQ⟩
  | createProjectOp now nowIso file body =>
    have hfresh : elemIds (some (Value.vNum now)) (projectsOf fs) = false := by
      simpa [opOk] using hok
    obtain ⟨h1, h2⟩ := projectRoute_step now nowIso file body fs hfresh hQ
    simp only [applyOp, idsOk, Bool.and_eq_true]
    exact ⟨by rw [h2]; exact hP, h1⟩
  | deleteProjectOp id =>
    obtain ⟨h1, h2⟩ := deleteProject_step id fs hQ
    simp only [applyOp, idsOk, Bool.and_eq_true]
    exact ⟨by rw [h2]; exact hP, h1⟩

theorem idsOk_run (ops : List StoreOp) :
    ∀ fs : FS, opsOk fs ops = true → idsOk fs = true → idsOk (runOps ops fs) = true := by
  induction ops with
  | nil => intro fs _ h; simpa [runOps] using h
  | cons op l ih =>
    intro fs hops hinv
    simp only [opsOk, Bool.and_eq_true] at hops
    exact ih _ hops.2 (idsOk_step fs op hops.1 hinv)

/-- C1 counterexample: two creates within the same millisecond (same
`Date.now()` value) produce two live records with the same id, so id
uniqueness fails, the second create's id was already present before its
call, and it is present twice after. -/
theorem c1_counterexample :
    nodupIds (postsOf (postPostsRoute 5 "t2" none demoBody
      (postPostsRoute 5 "t1" none demoBody emptyFS).1).1) = false ∧
    elemIds (some (Value.vNum 5)) (postsOf (postPostsRoute 5 "t1" none demoBody emptyFS).1)
      = true ∧
    countIds (some (Value.vNum 5)) (postsOf (postPostsRoute 5 "t2" none demoBody
      (postPostsRoute 5 "t1" none demoBody emptyFS).1).1) = 2 := by decide

/-- C1 (amended): provided every create runs at a wall-clock tick whose
id is not already live in its collection and no update rewrites the `id`
field, any sequence of create, update and delete requests preserves id
uniqueness in both collections; and a valid create whose id is absent
beforehand leaves that id present exactly once afterwards. -/
theorem c1_theorem :
    (∀ (ops : List StoreOp) (fs : FS), opsOk fs ops = true → idsOk fs = true →
        idsOk (runOps ops fs) = true) ∧
    (∀ (now : Nat) (nowIso : String) (file : Option UploadedFile) (body : Obj) (fs : FS),
        createOkPost file body = true →
        elemIds (some (Value.vNum now)) (postsOf fs) = false →
        countIds (some (Value.vNum now))
          (postsOf (postPostsRoute now nowIso file body fs).1) = 1) ∧
    (∀ (now : Nat) (nowIso : String) (file : Option UploadedFile) (body : Obj) (fs : FS),
        createOkProject file body = true →
        elemIds (some (Value.vNum now)) (projectsOf fs) = false →
        countIds (some (Value.vNum now))
          (projectsOf (postProjectsRoute now nowIso file body fs).1) = 1) := by
  refine ⟨fun ops fs => idsOk_run ops fs, ?_, ?_⟩
  · intro now nowIso file body fs hok hfresh
    rw [postRoute_success now nowIso file body fs hok]
    simp [postsOf, countIds, objGet_id_mkNewPost]
    exact countIds_zero_of_not_elem _ _ hfresh
  · intro now nowIso file body fs hok hfresh
    rw [projectRoute_success now nowIso file body fs hok]
    simp [projectsOf, countIds, objGet_id_mkNewProject]
    exact countIds_zero_of_not_elem _ _ hfresh

/-- Witness for C1 (amended): a concrete sequence with fresh create
ticks — two post creates, an update without `id`, a post delete, a
project create and delete — keeps ids unique; and a fresh create yields
count one. -/
theorem c1_witness :
    idsOk (runOps
      [.createPostOp 1 "t1" none demoBody,
       .createPostOp 2 "t2" none demoBody,
       .updatePostOp 1 "t3" [("title", Value.vStr "X")],
       .deletePostOp 2,
       .createProjectOp 3 "t4" none [("title", Value.vStr "P")],
       .deleteProjectOp 3] emptyFS) = true ∧
    countIds (some (Value.vNum 8))
      (postsOf (postPostsRoute 8 "t8" none demoBody emptyFS).1) = 1 ∧
    countIds (some (Value.vNum 9))
      (projectsOf (postProjectsRoute 9 "t9" none [("title", Value.vStr "P")] emptyFS).1) = 1 :=
  ⟨c1_theorem.1
     [.createPostOp 1 "t1" none demoBody,
      .createPostOp 2 "t2" none demoBody,
      .updatePostOp 1 "t3" [("title", Value.vStr "X")],
      .deletePostOp 2,
      .createProjectOp 3 "t4" none [("title", Value.vStr "P")],
      .deleteProjectOp 3] emptyFS (by decide) (by decide),
   c1_theorem.2.1 8 "t8" none demoBody emptyFS (by decide) (by decide),
   c1_theorem.2.2 9 "t9" none [("title", Value.vStr "P")] emptyFS (by decide) (by decide)⟩
